import Mathlib

/-!
Verification development for the pg-pubsub CDC engine.

Shallow embedding of the queue service, message processor, listener
discovery, trigger reconciliation and advisory-lock service.  Times are
modelled in minutes as integers; SQL NOW() is an explicit parameter.
-/

/-- Lifecycle states of a queue row (MessageStatus). -/
inductive MessageStatus where
  | pending
  | processing
  | processed
  | failed
deriving DecidableEq, Repr

/-- A persisted queue row (table pg_pubsub_queue).  Timestamps are integers
counted in minutes; payload is kept abstract as a string. -/
structure QueueRow where
  id : Nat
  channel : String
  payload : String
  created_at : Int
  processed_at : Option Int
  retry_count : Nat
  next_retry_at : Option Int
  status : MessageStatus
deriving DecidableEq, Repr

/-- Effect of QueueService.markAsFailed's UPDATE on a single matched row.
SQL evaluates every right-hand side against the OLD row, so the CASE on
next_retry_at reads the pre-increment retry_count: NULL when the old
retry_count is at least maxRetries, otherwise NOW() + 1 min * 2^(old
retry_count). -/
def markAsFailedRow (maxRetries : Nat) (now : Int) (r : QueueRow) : QueueRow :=
  { r with
    status := .failed
    retry_count := r.retry_count + 1
    next_retry_at :=
      if maxRetries ≤ r.retry_count then none
      else some (now + (2 : Int) ^ r.retry_count) }

/-- QueueService.markAsFailed: update every row whose id is in the list. -/
def markAsFailed (maxRetries : Nat) (now : Int) (ids : List Nat)
    (rows : List QueueRow) : List QueueRow :=
  rows.map fun r => if r.id ∈ ids then markAsFailedRow maxRetries now r else r

/-- Effect of QueueService.markAsProcessed's UPDATE on a single matched row:
status := processed and processed_at := NOW(), unconditionally. -/
def markAsProcessedRow (now : Int) (r : QueueRow) : QueueRow :=
  { r with status := .processed, processed_at := some now }

/-- QueueService.markAsProcessed: update every row whose id is in the list. -/
def markAsProcessed (now : Int) (ids : List Nat)
    (rows : List QueueRow) : List QueueRow :=
  rows.map fun r => if r.id ∈ ids then markAsProcessedRow now r else r

/-- SQL three-valued comparison "next_retry_at <= NOW()": NULL compares to
nothing, so a NULL next_retry_at never satisfies the predicate. -/
def sqlLeNullable (t : Option Int) (now : Int) : Bool :=
  match t with
  | none => false
  | some v => decide (v ≤ now)

/-- WHERE clause of fetchPendingMessages' claiming UPDATE:
(status = pending OR (status = failed AND retry_count < maxRetries AND
next_retry_at <= NOW())) AND channel = the argument. -/
def isClaimable (maxRetries : Nat) (now : Int) (ch : String) (r : QueueRow) : Bool :=
  (decide (r.status = .pending) ||
    (decide (r.status = .failed) && decide (r.retry_count < maxRetries) &&
      sqlLeNullable r.next_retry_at now)) &&
  decide (r.channel = ch)

/-- SET clause of the claiming UPDATE: status := processing and
next_retry_at := NOW() + 5 minutes (defensive re-claim deadline). -/
def claimRow (now : Int) (r : QueueRow) : QueueRow :=
  { r with status := .processing, next_retry_at := some (now + 5) }

/-- Queue-table state seen by one claiming transaction: the stored rows plus
the set of row ids currently row-locked by concurrent transactions (these
are skipped by FOR UPDATE SKIP LOCKED). -/
structure QueueState where
  rows : List QueueRow
  locked : List Nat
deriving Repr

/-- Insert an element into a list sorted by a numeric key (stable). -/
def insertByKey {α : Type} (key : α → Nat) (a : α) : List α → List α
  | [] => [a]
  | x :: xs => if key a ≤ key x then a :: x :: xs else x :: insertByKey key a xs

/-- Stable insertion sort by a numeric key; models ORDER BY key ASC. -/
def sortByKey {α : Type} (key : α → Nat) (l : List α) : List α :=
  l.foldr (insertByKey key) []

/-- The subquery SELECT id ... ORDER BY id ASC LIMIT 100 FOR UPDATE SKIP
LOCKED: eligible rows sorted by id, locked rows skipped, first 100 taken. -/
def claimSelect (maxRetries : Nat) (now : Int) (ch : String) (s : QueueState) :
    List QueueRow :=
  ((sortByKey QueueRow.id s.rows).filter
      (fun r => isClaimable maxRetries now ch r && !(s.locked.contains r.id))).take 100

/-- QueueService.fetchPendingMessages: one transaction claiming a batch.
The dbFail flag models the query/commit failing, in which case the
transaction is rolled back (state unchanged) and the error rethrown to the
caller.  On success the claimed rows are set to processing with the 5-minute
re-claim deadline and exactly the updated rows are returned. -/
def fetchPendingMessages (maxRetries : Nat) (now : Int) (ch : String)
    (dbFail : Bool) (s : QueueState) :
    Except String (List QueueRow) × QueueState :=
  if dbFail then (.error "query failed", s)
  else
    let sel := claimSelect maxRetries now ch s
    let ids := sel.map QueueRow.id
    (.ok (sel.map (claimRow now)),
      { s with rows := s.rows.map fun r =>
          if ids.contains r.id then claimRow now r else r })

/-! ## Message processor: payloads, grouping and dispatch -/

/-- Discriminant of a change event. -/
inductive ChangeEvent where
  | insert
  | update
  | delete
deriving DecidableEq, Repr

/-- A decoded change payload as seen by processChanges: the queue row id,
the source table and the event kind (the typed data plays no role in the
grouping/accounting claims). -/
structure ChangePayload where
  id : Nat
  table : String
  event : ChangeEvent
deriving DecidableEq, Repr

/-- The per-table argument handed to a handler's process method. -/
structure TableChanges where
  all : List ChangePayload
  inserts : List ChangePayload
  updates : List ChangePayload
  deletes : List ChangePayload
deriving DecidableEq, Repr

/-- Observable behaviour of one handler invocation: the ids it reports via
the onError callback before finishing, and whether it ends by throwing.
A thrown exception is caught and logged by processChanges. -/
structure HandlerOutcome where
  reported : List Nat
  throws : Bool
deriving DecidableEq, Repr

/-- A registered handler, abstracted to its observable behaviour. -/
def Handler : Type := TableChanges → HandlerOutcome

/-- The {all, INSERT, UPDATE, DELETE} record built for one table group. -/
def mkTableChanges (cs : List ChangePayload) : TableChanges :=
  { all := cs
    inserts := cs.filter fun c => decide (c.event = .insert)
    updates := cs.filter fun c => decide (c.event = .update)
    deletes := cs.filter fun c => decide (c.event = .delete) }

/-- One step of the groupBy reduce: append the change to its table's list,
creating the entry at the end on first sight (JS object key insertion order). -/
def addToGroup : List (String × List ChangePayload) → ChangePayload →
    List (String × List ChangePayload)
  | [], c => [(c.table, [c])]
  | (t, cs) :: rest, c =>
    if t = c.table then (t, cs ++ [c]) :: rest else (t, cs) :: addToGroup rest c

/-- payloads.reduce(...) grouping the (already sorted) payloads by table. -/
def groupByTable (ps : List ChangePayload) : List (String × List ChangePayload) :=
  ps.foldl addToGroup []

/-- First-match lookup in a grouping (JS property read). -/
def groupLookup (t : String) : List (String × List ChangePayload) → List ChangePayload
  | [] => []
  | (u, cs) :: rest => if u = t then cs else groupLookup t rest

/-- All ids pushed onto failedIds while dispatching one table group: each
registered handler is invoked and its onError pushes survive even when the
handler later throws (the exception is caught and only logged). -/
def dispatchGroup (listenersMap : String → List Handler)
    (g : String × List ChangePayload) : List Nat :=
  ((listenersMap g.1).map fun h => (h (mkTableChanges g.2)).reported).flatten

/-- Result of MessageProcessorService.processChanges: the arguments passed to
markAsProcessed and (when nonempty) markAsFailed. -/
structure ProcessResult where
  processedIds : List Nat
  failedIds : List Nat
  markAsFailedCalled : Bool
deriving DecidableEq, Repr

/-- MessageProcessorService.processChanges: sort by id ascending, group by
table, invoke every registered handler per group collecting onError reports,
then mark the non-reported payload ids processed and the reported ids failed. -/
def processChanges (payloads : List ChangePayload)
    (listenersMap : String → List Handler) : ProcessResult :=
  let sorted := sortByKey ChangePayload.id payloads
  let groups := groupByTable sorted
  let failedIds := (groups.map (dispatchGroup listenersMap)).flatten
  { processedIds :=
      (sorted.filter fun v => !(failedIds.contains v.id)).map ChangePayload.id
    failedIds := failedIds
    markAsFailedCalled := decide (0 < failedIds.length) }

/-! ## JavaScript values and the updatedFields diff -/

/-- A JavaScript runtime value as far as typeof and strict equality are
concerned.  Objects and arrays are identified by a reference number, so
structural equality of this type is exactly the strict equality of the
runtime (two object values are === iff they are the same reference). -/
inductive JsValue where
  | jsUndefined
  | null
  | bool (b : Bool)
  | num (n : Int)
  | str (s : String)
  | obj (ref : Nat)
  | arr (ref : Nat)
deriving DecidableEq, Repr

/-- typeof v === 'object': true for null, plain objects and arrays. -/
def typeofObject : JsValue → Bool
  | .null => true
  | .obj _ => true
  | .arr _ => true
  | _ => false

/-- A JS object as an association list in property insertion order. -/
def JsObject : Type := List (String × JsValue)

/-- Property read o[k]; a missing property reads as undefined. -/
def getProp (o : JsObject) (k : String) : JsValue :=
  match List.find? (fun p => decide (p.1 = k)) o with
  | some p => p.2
  | none => .jsUndefined

/-- Property write o[k] = v: overwrite in place or append a new property. -/
def setProp (o : JsObject) (k : String) (v : JsValue) : JsObject :=
  match o with
  | [] => [(k, v)]
  | (k', v') :: rest =>
    if k' = k then (k, v) :: rest else (k', v') :: setProp rest k v

/-- Object.keys(o): property names in insertion order. -/
def objKeys (o : JsObject) : List String :=
  o.map Prod.fst

/-- createEntity: remap a raw row object through the column-name to
property-name map, skipping unmapped columns, starting from an empty entity. -/
def createEntity (columnToProp : List (String × String)) (data : JsObject) :
    JsObject :=
  data.foldl
    (fun ent kv =>
      match List.find? (fun p => decide (p.1 = kv.1)) columnToProp with
      | some p => setProp ent p.2 kv.2
      | none => ent)
    []

/-- The UPDATE branch of pullAndProcessMessages: updatedFields is
Object.keys(oldData) filtered by typeof oldData[key] !== 'object' &&
oldData[key] !== newData[key].  Only the old value's type is inspected. -/
def updatedFields (oldData newData : JsObject) : List String :=
  (objKeys oldData).filter fun key =>
    !typeofObject (getProp oldData key) &&
      !(decide (getProp oldData key = getProp newData key))

/-! ## Listener discovery: merging registrations per table -/

/-- Event kinds a trigger can fire on. -/
inductive PgEvent where
  | insert
  | update
  | delete
deriving DecidableEq, Repr

/-- The full INSERT/UPDATE/DELETE mask. -/
def allPgEvents : List PgEvent := [.insert, .update, .delete]

/-- One handler registration as collected by discovery: target table (from
the ORM metadata), optional schema, optional event mask, optional payload
field list. -/
structure Registration where
  table : String
  schema : Option String
  events : Option (List PgEvent)
  payloadFields : Option (List String)
deriving DecidableEq, Repr

/-- A merged per-table listener record (TableListener). -/
structure TableListener where
  table : String
  schema : String
  events : Option (List PgEvent)
  payloadFields : Option (List String)
deriving DecidableEq, Repr

/-- First-occurrence deduplication, the element order produced by building
a JS Set from an array: keep each element at its first occurrence. -/
def jsDedup {α : Type} [DecidableEq α] : List α → List α
  | [] => []
  | a :: as => a :: (jsDedup as).filter fun b => decide (b ≠ a)

/-- Spread-into-a-Set union: new Set of xs ++ ys, in encounter order. -/
def jsSetUnion {α : Type} [DecidableEq α] (xs ys : List α) : List α :=
  jsDedup (xs ++ ys)

/-- The default trigger schema PG_PUBSUB_TRIGGER_SCHEMA. -/
def defaultTriggerSchema : String := "public"

/-- One step of processDiscoveredListeners: merge a registration into the
accumulated listeners.  A registration for an already-seen table unions the
event masks and payload fields of the existing listener (a missing mask
contributes the empty array: events || []); an unseen table appends a fresh
listener keeping the registration's optional mask.  The construction keeps
at most one listener per table, so updating every listener of matching table
coincides with the source's find-and-mutate. -/
def mergeRegistration (cfgSchema : Option String) (ls : List TableListener)
    (p : Registration) : List TableListener :=
  if ls.any fun l => decide (l.table = p.table) then
    ls.map fun l =>
      if l.table = p.table then
        { l with
          schema := p.schema.getD l.schema
          events := some (jsSetUnion (l.events.getD []) (p.events.getD []))
          payloadFields :=
            some (jsSetUnion (l.payloadFields.getD []) (p.payloadFields.getD [])) }
      else l
  else
    ls ++ [{ table := p.table
             schema := p.schema.getD (cfgSchema.getD defaultTriggerSchema)
             events := p.events
             payloadFields := p.payloadFields }]

/-- ListenerDiscoveryService.processDiscoveredListeners restricted to the
merged listeners list. -/
def processDiscoveredListeners (cfgSchema : Option String)
    (regs : List Registration) : List TableListener :=
  regs.foldl (mergeRegistration cfgSchema) []

/-- The event mask actually written into CREATE TRIGGER by createTriggers:
t.events?.length ? t.events : INSERT OR UPDATE OR DELETE. -/
def triggerEvents : Option (List PgEvent) → List PgEvent
  | none => allPgEvents
  | some es => if es.isEmpty then allPgEvents else es

/-! ## Trigger service: reconciliation of installed triggers -/

/-- One row of information_schema.triggers as read by listTriggers:
trigger name, trigger schema, event object table. -/
structure TriggerRec where
  name : String
  schema : String
  table : String
deriving DecidableEq, Repr

/-- SQL LIKE match of a subject against pattern ++ "%", where an underscore
in the pattern matches any single character. -/
def likeMatch : List Char → List Char → Bool
  | [], _ => true
  | _ :: _, [] => false
  | p :: ps, c :: cs => (decide (p = '_') || decide (p = c)) && likeMatch ps cs

/-- listTriggers' WHERE trigger_name LIKE '<pfx>_%'. -/
def likeMatchesName (pfx : String) (name : String) : Bool :=
  likeMatch (pfx.toList ++ ['_']) name.toList

/-- A name literally beginning with pfx followed by an underscore (the set
the reconciliation invariant speaks about). -/
def literallyPrefixed (pfx : String) (name : String) : Bool :=
  (pfx.toList ++ ['_']).isPrefixOf name.toList

/-- JS String.toLowerCase restricted to the character-wise case map. -/
def lowerName (s : String) : String :=
  String.mk (s.data.map Char.toLower)

/-- Generated trigger/function name: pfx_<table lower-cased>. -/
def canonicalName (pfx : String) (table : String) : String :=
  pfx ++ "_" ++ lowerName table

/-- Desired trigger metadata built from one merged listener. -/
def desiredTrigger (pfx : String) (l : TableListener) : TriggerRec :=
  { name := canonicalName pfx l.table, schema := l.schema, table := l.table }

/-- Effect of the batch DROP FUNCTION IF EXISTS s."n" CASCADE statements:
every trigger of a dropped (schema, name) disappears with its function. -/
def dropFunctions (ds : List TriggerRec) (db : List TriggerRec) : List TriggerRec :=
  db.filter fun e => !(ds.any fun d => decide (d.schema = e.schema) && decide (d.name = e.name))

/-- Effect of one createTriggers element: CREATE OR REPLACE FUNCTION, DROP
TRIGGER IF EXISTS on the target table, CREATE TRIGGER.  The trigger row for
this (schema, table, name) is (re)installed; rows differing in any component
are untouched. -/
def upsertTrigger (db : List TriggerRec) (t : TriggerRec) : List TriggerRec :=
  (db.filter fun e => !(decide (e.schema = t.schema) && decide (e.name = t.name) &&
    decide (e.table = t.table))) ++ [t]

/-- createTriggers over a list of desired triggers. -/
def createTriggersM (ts : List TriggerRec) (db : List TriggerRec) : List TriggerRec :=
  ts.foldl upsertTrigger db

/-- Atomic-replace setupTriggers: list the LIKE-matching triggers, drop all
of them, then create every desired trigger, in one transaction. -/
def setupTriggersAtomic (pfx : String) (listeners : List TableListener)
    (db : List TriggerRec) : List TriggerRec :=
  let existing := db.filter fun e => likeMatchesName pfx e.name
  createTriggersM (listeners.map (desiredTrigger pfx)) (dropFunctions existing db)

/-- Differential-upsert setupTriggers: list the LIKE-matching triggers,
upsert every desired trigger first, then drop only the listed triggers whose
(schema, table) key is absent from the desired set. -/
def setupTriggersDiff (pfx : String) (listeners : List TableListener)
    (db : List TriggerRec) : List TriggerRec :=
  let existing := db.filter fun e => likeMatchesName pfx e.name
  let desired := listeners.map (desiredTrigger pfx)
  let toRemove := existing.filter fun e =>
    !(listeners.any fun l => decide (l.schema = e.schema) && decide (l.table = e.table))
  dropFunctions toRemove (createTriggersM desired db)

/-! ## Advisory-lock service -/

/-- Observable outcome of PgLockService.tryLock.  The whole body, including
the await of onAccept, sits in one try/catch whose handler calls onReject
with the error; tryLock itself always returns normally. -/
inductive LockOutcome (E : Type) where
  | accepted : LockOutcome E
  | acceptedErrorRejected : E → LockOutcome E
  | rejectedBusy : LockOutcome E
  | rejectedDbError : E → LockOutcome E
deriving DecidableEq, Repr

/-- PgLockService.tryLock, abstracted over the result of the
pg_try_advisory_lock query and the behaviour of the onAccept callback.
acquire = .error e models the query throwing; .ok b its acquired flag.
onAcceptRun = .error e models onAccept throwing. -/
def tryLock {E : Type} (acquire : Except E Bool) (onAcceptRun : Except E Unit) :
    LockOutcome E :=
  match acquire with
  | .error e => .rejectedDbError e
  | .ok false => .rejectedBusy
  | .ok true =>
    match onAcceptRun with
    | .ok _ => .accepted
    | .error e => .acceptedErrorRejected e

/-- Whether the given outcome involved invoking the onReject callback. -/
def LockOutcome.onRejectInvoked {E : Type} : LockOutcome E → Bool
  | .accepted => false
  | _ => true

/-- The error value passed to onReject, when onReject received one. -/
def LockOutcome.onRejectError {E : Type} : LockOutcome E → Option E
  | .accepted => none
  | .rejectedBusy => none
  | .acceptedErrorRejected e => some e
  | .rejectedDbError e => some e

/-- Whether the given outcome lets an exception escape to tryLock's caller:
never, since the single catch swallows every error of the body. -/
def LockOutcome.escapes {E : Type} : LockOutcome E → Bool :=
  fun _ => false

/-- The tables of a list of merged listeners. -/
def tablesOf (ls : List TableListener) : List String :=
  ls.map TableListener.table

/-! # Theorems -/

/-! ## Sorting toolkit -/

theorem insertByKey_perm {α : Type} (key : α → Nat) (a : α) (l : List α) :
    (insertByKey key a l).Perm (a :: l) := by
  induction l with
  | nil => exact List.Perm.refl _
  | cons x xs ih =>
    rw [insertByKey]
    split
    · exact List.Perm.refl _
    · exact (ih.cons x).trans (List.Perm.swap a x xs)

theorem sortByKey_perm {α : Type} (key : α → Nat) (l : List α) :
    (sortByKey key l).Perm l := by
  induction l with
  | nil => exact List.Perm.refl _
  | cons x xs ih => exact (insertByKey_perm key x (sortByKey key xs)).trans (ih.cons x)

theorem insertByKey_pairwise {α : Type} (key : α → Nat) (a : α) (l : List α)
    (h : l.Pairwise fun x y => key x ≤ key y) :
    (insertByKey key a l).Pairwise fun x y => key x ≤ key y := by
  induction l with
  | nil => simp [insertByKey]
  | cons x xs ih =>
    rw [insertByKey]
    split
    case isTrue hle =>
      refine List.Pairwise.cons ?_ h
      intro y hy
      rcases List.mem_cons.mp hy with rfl | hy2
      · exact hle
      · exact le_trans hle (List.rel_of_pairwise_cons h hy2)
    case isFalse hgt =>
      refine List.Pairwise.cons ?_ (ih (List.Pairwise.of_cons h))
      intro y hy
      rcases List.mem_cons.mp ((insertByKey_perm key a xs).mem_iff.mp hy) with rfl | hy2
      · exact Nat.le_of_lt (Nat.lt_of_not_le hgt)
      · exact List.rel_of_pairwise_cons h hy2

theorem sortByKey_pairwise {α : Type} (key : α → Nat) (l : List α) :
    (sortByKey key l).Pairwise fun x y => key x ≤ key y := by
  induction l with
  | nil => simp [sortByKey]
  | cons x xs ih => exact insertByKey_pairwise key x (sortByKey key xs) ih

theorem pairwise_lt_of_pairwise_le {α : Type} (key : α → Nat) (l : List α)
    (hle : l.Pairwise fun x y => key x ≤ key y)
    (hnd : (l.map key).Nodup) :
    l.Pairwise fun x y => key x < key y := by
  have hne : l.Pairwise fun x y => key x ≠ key y := by
    simpa [List.Nodup, List.pairwise_map] using hnd
  exact (hle.and hne).imp fun h => Nat.lt_of_le_of_ne h.1 h.2

/-! ## C1: markAsFailed backoff -/

/-- C1 counterexample.  The claim predicts that the first failure of a
freshly delivered message (retry_count 0 becoming 1) sets next_retry_at to
about now + 2 minutes.  The SQL CASE reads the pre-increment retry_count,
so the row gets now + 1 min * 2^0 = now + 1 minute instead. -/
theorem markAsFailed_first_failure_counterexample :
    (markAsFailed 5 0 [1]
        [⟨1, "c", "p", 0, none, 0, none, MessageStatus.processing⟩]) =
      [⟨1, "c", "p", 0, none, 1, some 1, MessageStatus.failed⟩] ∧
    (markAsFailedRow 5 0 ⟨1, "c", "p", 0, none, 0, none, MessageStatus.processing⟩).retry_count
      = 1 ∧
    (markAsFailedRow 5 0 ⟨1, "c", "p", 0, none, 0, none, MessageStatus.processing⟩).next_retry_at
      ≠ some 2 := by
  refine ⟨?_, rfl, ?_⟩ <;> decide

/-- C1 (amended): markAsFailed sets each selected row's status to failed,
increments its retry_count, and computes next_retry_at from the
pre-increment retry_count: null when it is already at least max_retries,
otherwise now + 1 min * 2^(old retry_count); in particular the first
failure of a freshly delivered message (retry_count 0 becoming 1) sets
next_retry_at to now + 1 minute.  Unselected rows are unchanged. -/
theorem markAsFailed_backoff (maxRetries : Nat) (now : Int) (ids : List Nat)
    (rows : List QueueRow) (r : QueueRow) (hmem : r ∈ rows) (hid : r.id ∈ ids) :
    markAsFailedRow maxRetries now r ∈ markAsFailed maxRetries now ids rows ∧
    (markAsFailedRow maxRetries now r).status = MessageStatus.failed ∧
    (markAsFailedRow maxRetries now r).retry_count = r.retry_count + 1 ∧
    (maxRetries ≤ r.retry_count →
      (markAsFailedRow maxRetries now r).next_retry_at = none) ∧
    (r.retry_count < maxRetries →
      (markAsFailedRow maxRetries now r).next_retry_at =
        some (now + (2 : Int) ^ r.retry_count)) ∧
    (r.retry_count = 0 → 0 < maxRetries →
      (markAsFailedRow maxRetries now r).next_retry_at = some (now + 1)) ∧
    (∀ q ∈ rows, q.id ∉ ids → q ∈ markAsFailed maxRetries now ids rows) ∧
    (∀ q2 ∈ markAsFailed maxRetries now ids rows, ∃ q ∈ rows,
      q2 = if q.id ∈ ids then markAsFailedRow maxRetries now q else q) := by
  refine ⟨?_, rfl, rfl, ?_, ?_, ?_, ?_, ?_⟩
  · exact List.mem_map.mpr ⟨r, hmem, by simp [hid]⟩
  · intro h; simp [markAsFailedRow, h]
  · intro h; simp [markAsFailedRow, Nat.not_le.mpr h]
  · intro h0 hpos
    simp [markAsFailedRow, h0, Nat.not_le.mpr hpos]
  · intro q hq hnid
    exact List.mem_map.mpr ⟨q, hq, by simp [hnid]⟩
  · intro q2 hq2
    rcases List.mem_map.mp hq2 with ⟨q, hq, rfl⟩
    exact ⟨q, hq, rfl⟩

/-- Witness for markAsFailed_backoff at a concrete fresh row. -/
theorem markAsFailed_backoff_witness :
    ((⟨1, "c", "p", 0, none, 0, none, MessageStatus.processing⟩ : QueueRow) ∈
        [(⟨1, "c", "p", 0, none, 0, none, MessageStatus.processing⟩ : QueueRow)]) ∧
    ((1 : Nat) ∈ [(1 : Nat)]) ∧
    (markAsFailedRow 5 0
        ⟨1, "c", "p", 0, none, 0, none, MessageStatus.processing⟩).next_retry_at =
      some (0 + 1) :=
  ⟨by decide, by decide,
    (markAsFailed_backoff 5 0 [1]
        [⟨1, "c", "p", 0, none, 0, none, MessageStatus.processing⟩]
        ⟨1, "c", "p", 0, none, 0, none, MessageStatus.processing⟩
        (by decide) (by decide)).2.2.2.2.2.1 rfl (by decide)⟩

/-! ## C6: markAsProcessed on an already-processed row -/

/-- C6 counterexample.  Calling markAsProcessed on an id whose row is
already processed is not a no-op: processed_at is overwritten with the
call-time NOW(), so the row state changes whenever the clock moved. -/
theorem markAsProcessed_not_noop_counterexample :
    (⟨2, "c", "p", 0, some 0, 0, none, MessageStatus.processed⟩ : QueueRow).status =
      MessageStatus.processed ∧
    markAsProcessed 1 [2] [⟨2, "c", "p", 0, some 0, 0, none, MessageStatus.processed⟩] ≠
      [⟨2, "c", "p", 0, some 0, 0, none, MessageStatus.processed⟩] ∧
    (markAsProcessedRow 1
        ⟨2, "c", "p", 0, some 0, 0, none, MessageStatus.processed⟩).processed_at =
      some 1 := by
  refine ⟨rfl, ?_, rfl⟩
  decide

/-- C6 (amended): calling markAsProcessed on an already-processed id leaves
every column except processed_at unchanged (in particular status stays
processed) and refreshes processed_at to the call-time NOW(); the call is a
strict no-op exactly when the stored processed_at already equals NOW(), and
repeating the call at the same instant changes nothing further. -/
theorem markAsProcessed_on_processed (now : Int) (ids : List Nat)
    (rows : List QueueRow) (r : QueueRow) (hmem : r ∈ rows) (hid : r.id ∈ ids)
    (hst : r.status = MessageStatus.processed) :
    markAsProcessedRow now r ∈ markAsProcessed now ids rows ∧
    (markAsProcessedRow now r).status = r.status ∧
    (markAsProcessedRow now r).id = r.id ∧
    (markAsProcessedRow now r).channel = r.channel ∧
    (markAsProcessedRow now r).payload = r.payload ∧
    (markAsProcessedRow now r).created_at = r.created_at ∧
    (markAsProcessedRow now r).retry_count = r.retry_count ∧
    (markAsProcessedRow now r).next_retry_at = r.next_retry_at ∧
    (markAsProcessedRow now r).processed_at = some now ∧
    (r.processed_at = some now → markAsProcessedRow now r = r) ∧
    markAsProcessedRow now (markAsProcessedRow now r) = markAsProcessedRow now r ∧
    (∀ q ∈ rows, q.id ∉ ids → q ∈ markAsProcessed now ids rows) := by
  refine ⟨?_, ?_, rfl, rfl, rfl, rfl, rfl, rfl, rfl, ?_, rfl, ?_⟩
  · exact List.mem_map.mpr ⟨r, hmem, by simp [hid]⟩
  · rw [hst]; rfl
  · intro hpa
    cases r
    simp_all [markAsProcessedRow]
  · intro q hq hnid
    exact List.mem_map.mpr ⟨q, hq, by simp [hnid]⟩

/-- Witness for markAsProcessed_on_processed at a concrete processed row. -/
theorem markAsProcessed_on_processed_witness :
    ((⟨2, "c", "p", 0, some 7, 0, none, MessageStatus.processed⟩ : QueueRow) ∈
        [(⟨2, "c", "p", 0, some 7, 0, none, MessageStatus.processed⟩ : QueueRow)]) ∧
    ((2 : Nat) ∈ [(2 : Nat)]) ∧
    (⟨2, "c", "p", 0, some 7, 0, none, MessageStatus.processed⟩ : QueueRow).status =
      MessageStatus.processed ∧
    markAsProcessedRow 7 ⟨2, "c", "p", 0, some 7, 0, none, MessageStatus.processed⟩ =
      ⟨2, "c", "p", 0, some 7, 0, none, MessageStatus.processed⟩ :=
  ⟨by decide, by decide, rfl,
    (markAsProcessed_on_processed 7 [2]
        [⟨2, "c", "p", 0, some 7, 0, none, MessageStatus.processed⟩]
        ⟨2, "c", "p", 0, some 7, 0, none, MessageStatus.processed⟩
        (by decide) (by decide) rfl).2.2.2.2.2.2.2.2.2.1 rfl⟩

/-! ## C5: tryLock error routing -/

/-- C5 counterexample.  With the advisory lock acquired and onAccept
throwing, tryLock's single try/catch catches the error and invokes onReject
with it, returning normally; the exception does not propagate, and onReject
fires even though acquisition succeeded and no DB error occurred. -/
theorem tryLock_onAccept_exception_counterexample :
    tryLock (E := Nat) (.ok true) (.error 7) = .acceptedErrorRejected 7 ∧
    (tryLock (E := Nat) (.ok true) (.error 7)).onRejectInvoked = true ∧
    (tryLock (E := Nat) (.ok true) (.error 7)).onRejectError = some 7 ∧
    (tryLock (E := Nat) (.ok true) (.error 7)).escapes = false := by
  refine ⟨rfl, rfl, rfl, rfl⟩

/-- C5 (amended): tryLock invokes onReject (when supplied) exactly when the
lock is not acquired, a DB error occurs, or the onAccept callback throws;
a DB error or an onAccept exception is passed to onReject as the error
argument, a plain acquisition failure passes none.  In every case tryLock
returns normally: exceptions of the body, including those thrown by
onAccept, are caught by its catch block and never propagate to the caller. -/
theorem tryLock_error_routing {E : Type} (acquire : Except E Bool)
    (onAcceptRun : Except E Unit) :
    (∀ e, acquire = .error e → tryLock acquire onAcceptRun = .rejectedDbError e ∧
      (tryLock acquire onAcceptRun).onRejectError = some e) ∧
    (acquire = .ok false → tryLock acquire onAcceptRun = .rejectedBusy ∧
      (tryLock acquire onAcceptRun).onRejectError = none) ∧
    (acquire = .ok true → onAcceptRun = .ok () →
      tryLock acquire onAcceptRun = .accepted ∧
      (tryLock acquire onAcceptRun).onRejectInvoked = false) ∧
    (∀ e, acquire = .ok true → onAcceptRun = .error e →
      tryLock acquire onAcceptRun = .acceptedErrorRejected e ∧
      (tryLock acquire onAcceptRun).onRejectError = some e) ∧
    ((tryLock acquire onAcceptRun).onRejectInvoked = true ↔
      tryLock acquire onAcceptRun ≠ .accepted) ∧
    (tryLock acquire onAcceptRun).escapes = false := by
  refine ⟨?_, ?_, ?_, ?_, ?_, rfl⟩
  · rintro e rfl; exact ⟨rfl, rfl⟩
  · rintro rfl; exact ⟨rfl, rfl⟩
  · rintro rfl rfl; exact ⟨rfl, rfl⟩
  · rintro e rfl rfl; exact ⟨rfl, rfl⟩
  · rcases acquire with e | b
    · simp [tryLock, LockOutcome.onRejectInvoked]
    · rcases b with _ | _
      · simp [tryLock, LockOutcome.onRejectInvoked]
      · rcases onAcceptRun with e | u
        · simp [tryLock, LockOutcome.onRejectInvoked]
        · simp [tryLock, LockOutcome.onRejectInvoked]

/-- Witness for tryLock_error_routing on a concrete DB error. -/
theorem tryLock_error_routing_witness :
    tryLock (E := Nat) (.error 3) (.ok ()) = .rejectedDbError 3 ∧
    (tryLock (E := Nat) (.error 3) (.ok ())).onRejectError = some 3 :=
  (tryLock_error_routing (E := Nat) (.error 3) (.ok ())).1 3 rfl

/-! ## C7 and C10: updatedFields -/

/-- C7 counterexample.  The filter inspects only the old value's type, so a
key whose old value is a scalar and whose new value is an array (or object)
does appear in updatedFields, contradicting that object- and array-typed
values never appear there. -/
theorem updatedFields_object_counterexample :
    updatedFields [("a", JsValue.num 1)] [("a", JsValue.arr 0)] = ["a"] ∧
    typeofObject (getProp [("a", JsValue.arr 0)] "a") = true := by
  refine ⟨?_, rfl⟩
  rfl

/-- C7 (amended): for an UPDATE, updatedFields is exactly the set of keys of
the remapped old entity whose old value is not object-typed (typeof old[k]
is not 'object', which also excludes null) and whose old and new values
differ under strict inequality; the new value's type is not inspected, so a
key whose new value is an object or array still appears whenever its old
value is a differing scalar. -/
theorem updatedFields_characterization (oldData newData : JsObject) (k : String) :
    k ∈ updatedFields oldData newData ↔
      (k ∈ objKeys oldData ∧ typeofObject (getProp oldData k) = false ∧
        getProp oldData k ≠ getProp newData k) := by
  simp [updatedFields, List.mem_filter]

/-- Witness for updatedFields_characterization at a concrete update. -/
theorem updatedFields_characterization_witness :
    "a" ∈ updatedFields [("a", JsValue.num 1)] [("a", JsValue.num 2)] ↔
      ("a" ∈ objKeys [("a", JsValue.num 1)] ∧
        typeofObject (getProp [("a", JsValue.num 1)] "a") = false ∧
        getProp [("a", JsValue.num 1)] "a" ≠ getProp [("a", JsValue.num 2)] "a") :=
  updatedFields_characterization [("a", JsValue.num 1)] [("a", JsValue.num 2)] "a"

/-- C10: updatedFields draws its keys only from the remapped old entity --
a property present only in the new entity never appears -- and a property
whose old value is null never appears, because typeof null is 'object'. -/
theorem updatedFields_old_keys_only (oldData newData : JsObject) (k : String) :
    (k ∈ updatedFields oldData newData → k ∈ objKeys oldData) ∧
    (getProp oldData k = JsValue.null → k ∉ updatedFields oldData newData) := by
  constructor
  · intro hk
    exact (List.mem_filter.mp hk).1
  · intro hnull hk
    have hp := (List.mem_filter.mp hk).2
    rw [hnull] at hp
    simp [typeofObject] at hp

/-- Witness for updatedFields_old_keys_only: a changed scalar key is a key
of the old entity, and a null-valued old key is excluded even though the
new value differs. -/
theorem updatedFields_old_keys_only_witness :
    "a" ∈ objKeys [("a", JsValue.num 1), ("n", JsValue.null)] ∧
    "n" ∉ updatedFields [("a", JsValue.num 1), ("n", JsValue.null)]
        [("a", JsValue.num 2), ("n", JsValue.num 5)] :=
  ⟨(updatedFields_old_keys_only [("a", JsValue.num 1), ("n", JsValue.null)]
        [("a", JsValue.num 2), ("n", JsValue.num 5)] "a").1 (by decide),
    (updatedFields_old_keys_only [("a", JsValue.num 1), ("n", JsValue.null)]
        [("a", JsValue.num 2), ("n", JsValue.num 5)] "n").2 (by decide)⟩

/-! ## C2: fetchPendingMessages -/

/-- C2: fetchPendingMessages runs one transaction claiming at most 100 rows
whose channel equals the argument and which are pending, or failed with
retry_count below max_retries and next_retry_at due, in ascending id order
with locked rows skipped; it sets them to processing with next_retry_at =
now + 5 minutes, returns exactly the updated rows, leaves all other rows
unchanged, and on a query failure rolls back (state unchanged) and
propagates the error. -/
theorem fetchPendingMessages_spec (maxRetries : Nat) (now : Int) (ch : String)
    (s : QueueState) (hnd : (s.rows.map QueueRow.id).Nodup) :
    ((fetchPendingMessages maxRetries now ch true s).2 = s ∧
      ∀ out, (fetchPendingMessages maxRetries now ch true s).1 ≠ .ok out) ∧
    (∃ out s2, fetchPendingMessages maxRetries now ch false s = (.ok out, s2) ∧
      out.length ≤ 100 ∧
      (out.map QueueRow.id).Pairwise (fun a b => a < b) ∧
      (∀ r2 ∈ out, r2.status = MessageStatus.processing ∧
        r2.next_retry_at = some (now + 5) ∧ r2.channel = ch ∧
        ∃ r ∈ s.rows, isClaimable maxRetries now ch r = true ∧
          s.locked.contains r.id = false ∧ r2 = claimRow now r) ∧
      (out.length < 100 → ∀ r ∈ s.rows, isClaimable maxRetries now ch r = true →
        s.locked.contains r.id = false → r.id ∈ out.map QueueRow.id) ∧
      s2.rows = s.rows.map (fun r =>
        if (out.map QueueRow.id).contains r.id then claimRow now r else r) ∧
      s2.locked = s.locked) := by
  have hidmap : ((claimSelect maxRetries now ch s).map (claimRow now)).map QueueRow.id =
      (claimSelect maxRetries now ch s).map QueueRow.id := by
    rw [List.map_map]
    rfl
  have hsubX : List.Sublist (claimSelect maxRetries now ch s)
      (sortByKey QueueRow.id s.rows) :=
    (List.take_sublist _ _).trans (List.filter_sublist _)
  have hpairle : (claimSelect maxRetries now ch s).Pairwise fun x y => x.id ≤ y.id :=
    (sortByKey_pairwise QueueRow.id s.rows).sublist hsubX
  have hndX : ((claimSelect maxRetries now ch s).map QueueRow.id).Nodup := by
    have h1 : ((sortByKey QueueRow.id s.rows).map QueueRow.id).Nodup :=
      (((sortByKey_perm QueueRow.id s.rows).map QueueRow.id).nodup_iff).mpr hnd
    exact h1.sublist (hsubX.map QueueRow.id)
  constructor
  · exact ⟨rfl, fun out h => by simp [fetchPendingMessages] at h⟩
  · refine ⟨(claimSelect maxRetries now ch s).map (claimRow now),
      { s with rows := s.rows.map fun r =>
          if ((claimSelect maxRetries now ch s).map QueueRow.id).contains r.id
          then claimRow now r else r }, rfl, ?_, ?_, ?_, ?_, ?_, rfl⟩
    · rw [List.length_map]
      exact List.length_take_le 100 _
    · rw [hidmap]
      exact List.pairwise_map.mpr
        (pairwise_lt_of_pairwise_le QueueRow.id _ hpairle hndX)
    · intro r2 hr2
      rcases List.mem_map.mp hr2 with ⟨r, hrX, rfl⟩
      have hrf : r ∈ (sortByKey QueueRow.id s.rows).filter
          (fun r => isClaimable maxRetries now ch r && !(s.locked.contains r.id)) :=
        (List.take_sublist _ _).subset hrX
      have hrmem : r ∈ s.rows :=
        (sortByKey_perm QueueRow.id s.rows).subset (List.mem_filter.mp hrf).1
      have hpred := (List.mem_filter.mp hrf).2
      rw [Bool.and_eq_true, Bool.not_eq_true'] at hpred
      have hch : r.channel = ch := by
        have h2 := hpred.1
        rw [isClaimable, Bool.and_eq_true] at h2
        exact of_decide_eq_true h2.2
      exact ⟨rfl, rfl, hch, r, hrmem, hpred.1, hpred.2, rfl⟩
    · intro hlen r hr hcl hnl
      rw [List.length_map] at hlen
      have hflen : ((sortByKey QueueRow.id s.rows).filter
          (fun r => isClaimable maxRetries now ch r && !(s.locked.contains r.id))).length < 100 := by
        have h3 := List.length_take 100 ((sortByKey QueueRow.id s.rows).filter
          (fun r => isClaimable maxRetries now ch r && !(s.locked.contains r.id)))
        rw [claimSelect] at hlen
        omega
      have hXall : claimSelect maxRetries now ch s =
          (sortByKey QueueRow.id s.rows).filter
            (fun r => isClaimable maxRetries now ch r && !(s.locked.contains r.id)) :=
        List.take_of_length_le (Nat.le_of_lt hflen)
      rw [hidmap, hXall]
      refine List.mem_map.mpr ⟨r, List.mem_filter.mpr ⟨?_, ?_⟩, rfl⟩
      · exact ((sortByKey_perm QueueRow.id s.rows).mem_iff).mpr hr
      · rw [Bool.and_eq_true, Bool.not_eq_true']
        exact ⟨hcl, hnl⟩
    · rw [hidmap]

/-- Witness for fetchPendingMessages_spec on a concrete three-row queue
with one locked row. -/
theorem fetchPendingMessages_spec_witness :
    (([(⟨1, "ch", "p", 0, none, 0, none, MessageStatus.pending⟩ : QueueRow),
        ⟨2, "ch", "p", 0, none, 1, some 0, MessageStatus.failed⟩,
        ⟨3, "other", "p", 0, none, 0, none, MessageStatus.pending⟩].map
        QueueRow.id).Nodup) ∧
    (fetchPendingMessages 3 10 "ch" true
        ⟨[⟨1, "ch", "p", 0, none, 0, none, MessageStatus.pending⟩,
          ⟨2, "ch", "p", 0, none, 1, some 0, MessageStatus.failed⟩,
          ⟨3, "other", "p", 0, none, 0, none, MessageStatus.pending⟩], [2]⟩).2 =
      ⟨[⟨1, "ch", "p", 0, none, 0, none, MessageStatus.pending⟩,
        ⟨2, "ch", "p", 0, none, 1, some 0, MessageStatus.failed⟩,
        ⟨3, "other", "p", 0, none, 0, none, MessageStatus.pending⟩], [2]⟩ :=
  ⟨by decide,
    (fetchPendingMessages_spec 3 10 "ch"
        ⟨[⟨1, "ch", "p", 0, none, 0, none, MessageStatus.pending⟩,
          ⟨2, "ch", "p", 0, none, 1, some 0, MessageStatus.failed⟩,
          ⟨3, "other", "p", 0, none, 0, none, MessageStatus.pending⟩], [2]⟩
        (by decide)).1.1⟩

/-! ## Grouping lemmas -/

theorem groupLookup_addToGroup (t : String) (acc : List (String × List ChangePayload))
    (c : ChangePayload) :
    groupLookup t (addToGroup acc c) =
      if c.table = t then groupLookup t acc ++ [c] else groupLookup t acc := by
  induction acc with
  | nil =>
    by_cases h : c.table = t <;> simp [addToGroup, groupLookup, h]
  | cons p rest ih =>
    obtain ⟨u, cs⟩ := p
    rw [addToGroup]
    by_cases hu : u = c.table
    · rw [if_pos hu]
      by_cases ht : u = t
      · simp [groupLookup, ht, hu.symm.trans ht]
      · have hct : ¬ c.table = t := fun h => ht (hu.trans h)
        simp [groupLookup, ht, hct]
    · rw [if_neg hu]
      by_cases ht : u = t
      · have hct : ¬ c.table = t := fun h => hu (ht.trans h.symm)
        simp [groupLookup, ht, hct]
      · by_cases hct : c.table = t <;> simp [groupLookup, ht, hct, ih]

theorem groupLookup_foldl (ps : List ChangePayload) :
    ∀ (acc : List (String × List ChangePayload)) (t : String),
      groupLookup t (ps.foldl addToGroup acc) =
        groupLookup t acc ++ ps.filter (fun p => decide (p.table = t)) := by
  induction ps with
  | nil => intro acc t; simp
  | cons c ps ih =>
    intro acc t
    rw [List.foldl_cons, ih, groupLookup_addToGroup]
    by_cases h : c.table = t <;> simp [h]

theorem groupByTable_lookup (ps : List ChangePayload) (t : String) :
    groupLookup t (groupByTable ps) = ps.filter (fun p => decide (p.table = t)) := by
  rw [groupByTable, groupLookup_foldl]
  rfl

theorem addToGroup_keys (acc : List (String × List ChangePayload)) (c : ChangePayload) :
    (addToGroup acc c).map Prod.fst =
      if c.table ∈ acc.map Prod.fst then acc.map Prod.fst
      else acc.map Prod.fst ++ [c.table] := by
  induction acc with
  | nil => simp [addToGroup]
  | cons p rest ih =>
    obtain ⟨u, cs⟩ := p
    rw [addToGroup]
    by_cases hu : u = c.table
    · rw [if_pos hu]
      have hin : c.table ∈ ((u, cs) :: rest).map Prod.fst := by simp [hu.symm]
      rw [if_pos hin]
      simp
    · rw [if_neg hu]
      have hcu : ¬ c.table = u := fun h => hu h.symm
      have hne : (c.table ∈ ((u, cs) :: rest).map Prod.fst) ↔
          c.table ∈ rest.map Prod.fst := by simp [hcu]
      by_cases hmem : c.table ∈ rest.map Prod.fst
      · rw [if_pos (hne.mpr hmem)]
        simp [ih, hmem]
      · rw [if_neg (fun h => hmem (hne.mp h))]
        simp [ih, hmem]

theorem foldl_addToGroup_keys_nodup (ps : List ChangePayload) :
    ∀ (acc : List (String × List ChangePayload)),
      ((acc.map Prod.fst).Nodup) → (((ps.foldl addToGroup acc).map Prod.fst).Nodup) := by
  induction ps with
  | nil => intro acc h; simpa using h
  | cons c ps ih =>
    intro acc h
    rw [List.foldl_cons]
    refine ih _ ?_
    rw [addToGroup_keys]
    by_cases hmem : c.table ∈ acc.map Prod.fst <;> simp [hmem, List.nodup_append, h]

theorem groupByTable_keys_nodup (ps : List ChangePayload) :
    ((groupByTable ps).map Prod.fst).Nodup :=
  foldl_addToGroup_keys_nodup ps [] (by simp)

theorem mem_eq_groupLookup :
    ∀ (gs : List (String × List ChangePayload)), ((gs.map Prod.fst).Nodup) →
      ∀ (t : String) (cs : List ChangePayload), (t, cs) ∈ gs → cs = groupLookup t gs := by
  intro gs
  induction gs with
  | nil => intro _ t cs h; cases h
  | cons p rest ih =>
    obtain ⟨u, ds⟩ := p
    intro hnd t cs hmem
    rcases List.mem_cons.mp hmem with heq | hmem2
    · cases heq
      simp [groupLookup]
    · have htrest : t ∈ rest.map Prod.fst :=
        List.mem_map.mpr ⟨(t, cs), hmem2, rfl⟩
      have hut : u ≠ t := by
        intro h
        subst h
        exact (List.nodup_cons.mp (by simpa using hnd)).1 htrest
      rw [groupLookup, if_neg hut]
      exact ih (List.nodup_cons.mp (by simpa using hnd)).2 t cs hmem2

/-! ## C9: per-table dispatch order -/

/-- C9: within one drain the decoded payloads are sorted by id ascending and
then grouped by table, so the list handed to a table's handlers is exactly
the sorted payloads restricted to that table, in ascending id order --
strictly ascending whenever the batch ids are distinct (they are queue
primary keys). -/
theorem handlers_observe_sorted (payloads : List ChangePayload) (t : String)
    (cs : List ChangePayload)
    (hmem : (t, cs) ∈ groupByTable (sortByKey ChangePayload.id payloads)) :
    cs = (sortByKey ChangePayload.id payloads).filter
        (fun p => decide (p.table = t)) ∧
    (mkTableChanges cs).all = cs ∧
    cs.Pairwise (fun a b => a.id ≤ b.id) ∧
    ((payloads.map ChangePayload.id).Nodup →
      cs.Pairwise (fun a b => a.id < b.id)) := by
  have hcs : cs = (sortByKey ChangePayload.id payloads).filter
      (fun p => decide (p.table = t)) := by
    rw [mem_eq_groupLookup _ (groupByTable_keys_nodup _) t cs hmem]
    exact groupByTable_lookup _ t
  have hsub : List.Sublist cs (sortByKey ChangePayload.id payloads) := by
    rw [hcs]
    exact List.filter_sublist _
  have hle : cs.Pairwise fun a b => a.id ≤ b.id :=
    (sortByKey_pairwise ChangePayload.id payloads).sublist hsub
  refine ⟨hcs, rfl, hle, ?_⟩
  intro hnd
  have hnds : ((sortByKey ChangePayload.id payloads).map ChangePayload.id).Nodup :=
    (((sortByKey_perm ChangePayload.id payloads).map ChangePayload.id).nodup_iff).mpr hnd
  exact pairwise_lt_of_pairwise_le ChangePayload.id cs hle
    (hnds.sublist (hsub.map ChangePayload.id))

/-- Witness for handlers_observe_sorted on a concrete mixed batch. -/
theorem handlers_observe_sorted_witness :
    (("u", [(⟨1, "u", ChangeEvent.update⟩ : ChangePayload), ⟨2, "u", ChangeEvent.insert⟩]) ∈
      groupByTable (sortByKey ChangePayload.id
        [⟨2, "u", ChangeEvent.insert⟩, ⟨1, "u", ChangeEvent.update⟩,
          ⟨3, "v", ChangeEvent.delete⟩])) ∧
    ([(⟨1, "u", ChangeEvent.update⟩ : ChangePayload),
      ⟨2, "u", ChangeEvent.insert⟩].Pairwise fun a b => a.id < b.id) :=
  ⟨by decide,
    (handlers_observe_sorted
        [⟨2, "u", ChangeEvent.insert⟩, ⟨1, "u", ChangeEvent.update⟩,
          ⟨3, "v", ChangeEvent.delete⟩] "u"
        [⟨1, "u", ChangeEvent.update⟩, ⟨2, "u", ChangeEvent.insert⟩]
        (by decide)).2.2.2 (by decide)⟩

/-! ## C3: failure accounting across handlers -/

/-- C3: during one drain the ids passed to markAsFailed are exactly those
reported via onError across all handlers of all table groups, the ids
passed to markAsProcessed are exactly the decoded payload ids outside that
set, markAsFailed is not called when nothing was reported, and the outcome
depends only on what the handlers report, not on whether they throw: a
handler exception without onError is caught and marks nothing failed. -/
theorem processChanges_failure_accounting (payloads : List ChangePayload)
    (lm : String → List Handler) :
    (∀ i, i ∈ (processChanges payloads lm).failedIds ↔
      ∃ g ∈ groupByTable (sortByKey ChangePayload.id payloads),
        ∃ h2 ∈ lm g.1, i ∈ (h2 (mkTableChanges g.2)).reported) ∧
    (∀ i, i ∈ (processChanges payloads lm).processedIds ↔
      ((∃ p ∈ payloads, p.id = i) ∧
        i ∉ (processChanges payloads lm).failedIds)) ∧
    ((processChanges payloads lm).markAsFailedCalled = false ↔
      (processChanges payloads lm).failedIds = []) ∧
    ((∀ g ∈ groupByTable (sortByKey ChangePayload.id payloads),
        ∀ h2 ∈ lm g.1, (h2 (mkTableChanges g.2)).reported = []) →
      (processChanges payloads lm).markAsFailedCalled = false) ∧
    (∀ lm2 : String → List Handler,
      (∀ u c, (lm u).map (fun h2 => (h2 c).reported) =
        (lm2 u).map (fun h2 => (h2 c).reported)) →
      processChanges payloads lm = processChanges payloads lm2) := by
  have hfail : ∀ i, i ∈ (processChanges payloads lm).failedIds ↔
      ∃ g ∈ groupByTable (sortByKey ChangePayload.id payloads),
        ∃ h2 ∈ lm g.1, i ∈ (h2 (mkTableChanges g.2)).reported := by
    intro i
    show i ∈ ((groupByTable (sortByKey ChangePayload.id payloads)).map
        (dispatchGroup lm)).flatten ↔ _
    rw [List.mem_flatten]
    constructor
    · rintro ⟨l2, hl2, hi⟩
      rcases List.mem_map.mp hl2 with ⟨g, hg, rfl⟩
      rw [dispatchGroup, List.mem_flatten] at hi
      rcases hi with ⟨l3, hl3, hi3⟩
      rcases List.mem_map.mp hl3 with ⟨h2, hh2, rfl⟩
      exact ⟨g, hg, h2, hh2, hi3⟩
    · rintro ⟨g, hg, h2, hh2, hi⟩
      refine ⟨dispatchGroup lm g, List.mem_map.mpr ⟨g, hg, rfl⟩, ?_⟩
      rw [dispatchGroup, List.mem_flatten]
      exact ⟨(h2 (mkTableChanges g.2)).reported, List.mem_map.mpr ⟨h2, hh2, rfl⟩, hi⟩
  refine ⟨hfail, ?_, ?_, ?_, ?_⟩
  · intro i
    show i ∈ ((sortByKey ChangePayload.id payloads).filter
        (fun v => !((processChanges payloads lm).failedIds.contains v.id))).map
        ChangePayload.id ↔ _
    rw [List.mem_map]
    constructor
    · rintro ⟨p, hp, rfl⟩
      have hp2 := List.mem_filter.mp hp
      refine ⟨⟨p, (sortByKey_perm ChangePayload.id payloads).subset hp2.1, rfl⟩, ?_⟩
      have := hp2.2
      simpa using this
    · rintro ⟨⟨p, hp, rfl⟩, hni⟩
      refine ⟨p, List.mem_filter.mpr ⟨?_, ?_⟩, rfl⟩
      · exact ((sortByKey_perm ChangePayload.id payloads).mem_iff).mpr hp
      · simpa using hni
  · show (decide (0 < (processChanges payloads lm).failedIds.length) = false) ↔ _
    simp [List.length_eq_zero]
  · intro hnone
    have hnil : (processChanges payloads lm).failedIds = [] := by
      rw [List.eq_nil_iff_forall_not_mem]
      intro i hi
      rcases (hfail i).mp hi with ⟨g, hg, h2, hh2, hi2⟩
      rw [hnone g hg h2 hh2] at hi2
      cases hi2
    show (decide (0 < (processChanges payloads lm).failedIds.length) = false)
    simp [hnil]
  · intro lm2 h5
    have hd : dispatchGroup lm = dispatchGroup lm2 := by
      funext g
      rw [dispatchGroup, dispatchGroup, h5]
    unfold processChanges
    rw [hd]

/-! ## Trigger reconciliation lemmas -/

theorem mem_upsertTrigger (db : List TriggerRec) (t e : TriggerRec) :
    e ∈ upsertTrigger db t ↔ e = t ∨ e ∈ db := by
  constructor
  · intro h
    rcases List.mem_append.mp h with h1 | h2
    · exact Or.inr (List.mem_filter.mp h1).1
    · simp only [List.mem_singleton] at h2
      exact Or.inl h2
  · intro h
    rcases h with rfl | h2
    · exact List.mem_append.mpr (Or.inr (by simp))
    · by_cases hm : e.schema = t.schema ∧ e.name = t.name ∧ e.table = t.table
      · have he : e = t := by
          obtain ⟨h1, h3, h4⟩ := hm
          cases e
          cases t
          simp_all
        exact he ▸ List.mem_append.mpr (Or.inr (by simp))
      · refine List.mem_append.mpr (Or.inl (List.mem_filter.mpr ⟨h2, ?_⟩))
        rw [Bool.not_eq_true', Bool.eq_false_iff]
        intro hcontra
        simp only [Bool.and_eq_true, decide_eq_true_eq] at hcontra
        exact hm ⟨hcontra.1.1, hcontra.1.2, hcontra.2⟩

theorem mem_createTriggersM (ts : List TriggerRec) (db : List TriggerRec)
    (e : TriggerRec) : e ∈ createTriggersM ts db ↔ e ∈ ts ∨ e ∈ db := by
  induction ts generalizing db with
  | nil => simp [createTriggersM]
  | cons t ts ih =>
    show e ∈ createTriggersM ts (upsertTrigger db t) ↔ _
    rw [ih, mem_upsertTrigger]
    simp [List.mem_cons]
    tauto

theorem mem_dropFunctions (ds : List TriggerRec) (db : List TriggerRec)
    (e : TriggerRec) :
    e ∈ dropFunctions ds db ↔
      e ∈ db ∧ ∀ d ∈ ds, ¬(d.schema = e.schema ∧ d.name = e.name) := by
  rw [dropFunctions, List.mem_filter]
  simp [List.any_eq_true, not_and]

theorem likeMatch_of_isPrefixOf :
    ∀ (p s : List Char), p.isPrefixOf s = true → likeMatch p s = true := by
  intro p
  induction p with
  | nil => intro s h; rfl
  | cons a ps ih =>
    intro s h
    cases s with
    | nil => simp [List.isPrefixOf] at h
    | cons b bs =>
      simp only [List.isPrefixOf, Bool.and_eq_true, beq_iff_eq] at h
      rw [likeMatch, Bool.and_eq_true]
      exact ⟨by simp [h.1], ih bs h.2⟩

theorem literallyPrefixed_canonical (pfx table : String) :
    literallyPrefixed pfx (canonicalName pfx table) = true := by
  rw [literallyPrefixed, canonicalName]
  have h : (pfx ++ "_" ++ lowerName table).toList =
      (pfx.toList ++ ['_']) ++ (lowerName table).toList := by
    simp [String.toList, String.data_append]
  rw [h]
  exact List.isPrefixOf_iff_prefix.mpr (List.prefix_append _ _)

theorem likeMatchesName_of_literal (pfx n : String)
    (h : literallyPrefixed pfx n = true) : likeMatchesName pfx n = true :=
  likeMatch_of_isPrefixOf _ _ h

/-! ## C8: reconciliation invariant -/

/-- C8: after setupTriggers completes, under the atomic-replace strategy and
under the differential-upsert strategy alike, the installed trigger names
beginning with <pfx>_ are exactly the canonical names of the desired tables,
and every installed prefixed trigger belongs to a desired (schema, table).
The hypotheses record the library's own naming discipline for pre-existing
triggers: every installed prefixed trigger carries the canonical name of its
table, and canonical names identify tables across the installed and desired
sets on a common schema. -/
theorem setupTriggers_reconcile_invariant (pfx : String)
    (listeners : List TableListener) (db : List TriggerRec)
    (hcanon : ∀ e ∈ db, literallyPrefixed pfx e.name = true →
      e.name = canonicalName pfx e.table)
    (hinj : ∀ e ∈ db, ∀ l ∈ listeners, e.schema = l.schema →
      canonicalName pfx e.table = canonicalName pfx l.table → e.table = l.table) :
    ((∀ n, (∃ e ∈ setupTriggersAtomic pfx listeners db,
        literallyPrefixed pfx e.name = true ∧ e.name = n) ↔
      (∃ l ∈ listeners, n = canonicalName pfx l.table)) ∧
     (∀ e ∈ setupTriggersAtomic pfx listeners db,
        literallyPrefixed pfx e.name = true →
        ∃ l ∈ listeners, e.schema = l.schema ∧ e.table = l.table)) ∧
    ((∀ n, (∃ e ∈ setupTriggersDiff pfx listeners db,
        literallyPrefixed pfx e.name = true ∧ e.name = n) ↔
      (∃ l ∈ listeners, n = canonicalName pfx l.table)) ∧
     (∀ e ∈ setupTriggersDiff pfx listeners db,
        literallyPrefixed pfx e.name = true →
        ∃ l ∈ listeners, e.schema = l.schema ∧ e.table = l.table)) := by
  have hatomic : setupTriggersAtomic pfx listeners db =
      createTriggersM (listeners.map (desiredTrigger pfx))
        (dropFunctions (db.filter fun e => likeMatchesName pfx e.name) db) := rfl
  have hdiffeq : setupTriggersDiff pfx listeners db =
      dropFunctions
        ((db.filter fun e => likeMatchesName pfx e.name).filter fun e =>
          !(listeners.any fun l => decide (l.schema = e.schema) &&
            decide (l.table = e.table)))
        (createTriggersM (listeners.map (desiredTrigger pfx)) db) := rfl
  -- membership in the atomic result is membership in the desired set
  have hmatomic : ∀ e, e ∈ setupTriggersAtomic pfx listeners db →
      literallyPrefixed pfx e.name = true →
      ∃ l ∈ listeners, e = desiredTrigger pfx l := by
    intro e he hlit
    rw [hatomic, mem_createTriggersM] at he
    rcases he with he | he
    · rcases List.mem_map.mp he with ⟨l, hl, rfl⟩
      exact ⟨l, hl, rfl⟩
    · exfalso
      rw [mem_dropFunctions] at he
      exact he.2 e (List.mem_filter.mpr
          ⟨he.1, likeMatchesName_of_literal pfx e.name hlit⟩) ⟨rfl, rfl⟩
  -- membership of every desired trigger in the atomic result
  have hdatomic : ∀ l ∈ listeners,
      desiredTrigger pfx l ∈ setupTriggersAtomic pfx listeners db := by
    intro l hl
    rw [hatomic, mem_createTriggersM]
    exact Or.inl (List.mem_map.mpr ⟨l, hl, rfl⟩)
  -- the elements of toRemove are exactly the like-matching db rows with
  -- no desired (schema, table) key
  have hrem : ∀ e2 : TriggerRec,
      e2 ∈ ((db.filter fun e => likeMatchesName pfx e.name).filter fun e =>
        !(listeners.any fun l => decide (l.schema = e.schema) &&
          decide (l.table = e.table))) ↔
      ((e2 ∈ db ∧ likeMatchesName pfx e2.name = true) ∧
        ∀ l ∈ listeners, ¬(l.schema = e2.schema ∧ l.table = e2.table)) := by
    intro e2
    rw [List.mem_filter, List.mem_filter]
    simp [List.any_eq_true, not_and]
  -- a desired trigger survives the differential drop phase
  have hsurv : ∀ l ∈ listeners,
      desiredTrigger pfx l ∈ setupTriggersDiff pfx listeners db := by
    intro l hl
    rw [hdiffeq, mem_dropFunctions]
    refine ⟨(mem_createTriggersM _ _ _).mpr
      (Or.inl (List.mem_map.mpr ⟨l, hl, rfl⟩)), ?_⟩
    intro d hd hmatch
    rw [hrem] at hd
    have hdlit : literallyPrefixed pfx d.name = true := by
      rw [hmatch.2]
      exact literallyPrefixed_canonical pfx l.table
    have hdname : d.name = canonicalName pfx d.table :=
      hcanon d hd.1.1 hdlit
    have htab : d.table = l.table :=
      hinj d hd.1.1 l hl hmatch.1 (hdname.symm.trans hmatch.2)
    exact hd.2 l hl ⟨hmatch.1.symm, htab.symm⟩
  -- every prefixed element of the differential result is a desired trigger
  have hmdiff : ∀ e, e ∈ setupTriggersDiff pfx listeners db →
      literallyPrefixed pfx e.name = true →
      ∃ l ∈ listeners, e.schema = l.schema ∧ e.table = l.table ∧
        e.name = canonicalName pfx l.table := by
    intro e he hlit
    rw [hdiffeq, mem_dropFunctions, mem_createTriggersM] at he
    rcases he.1 with hd | hdb
    · rcases List.mem_map.mp hd with ⟨l, hl, rfl⟩
      exact ⟨l, hl, rfl, rfl, rfl⟩
    · have hename : e.name = canonicalName pfx e.table := hcanon e hdb hlit
      by_cases hkey : ∃ l ∈ listeners, l.schema = e.schema ∧ l.table = e.table
      · rcases hkey with ⟨l, hl, hs, ht⟩
        exact ⟨l, hl, hs.symm, ht.symm, by rw [hename, ht]⟩
      · exfalso
        refine he.2 e ((hrem e).mpr ⟨⟨hdb,
          likeMatchesName_of_literal pfx e.name hlit⟩, ?_⟩) ⟨rfl, rfl⟩
        intro l hl hc
        exact hkey ⟨l, hl, hc⟩
  refine ⟨⟨?_, ?_⟩, ?_, ?_⟩
  · intro n
    constructor
    · rintro ⟨e, he, hlit, rfl⟩
      rcases hmatomic e he hlit with ⟨l, hl, rfl⟩
      exact ⟨l, hl, rfl⟩
    · rintro ⟨l, hl, rfl⟩
      exact ⟨desiredTrigger pfx l, hdatomic l hl,
        literallyPrefixed_canonical pfx l.table, rfl⟩
  · intro e he hlit
    rcases hmatomic e he hlit with ⟨l, hl, rfl⟩
    exact ⟨l, hl, rfl, rfl⟩
  · intro n
    constructor
    · rintro ⟨e, he, hlit, rfl⟩
      rcases hmdiff e he hlit with ⟨l, hl, hs, ht, hn⟩
      exact ⟨l, hl, hn⟩
    · rintro ⟨l, hl, rfl⟩
      exact ⟨desiredTrigger pfx l, hsurv l hl,
        literallyPrefixed_canonical pfx l.table, rfl⟩
  · intro e he hlit
    rcases hmdiff e he hlit with ⟨l, hl, hs, ht, hn⟩
    exact ⟨l, hl, hs, ht⟩

/-- Witness for setupTriggers_reconcile_invariant: one desired table, one
obsolete installed trigger. -/
theorem setupTriggers_reconcile_invariant_witness :
    ∃ e ∈ setupTriggersAtomic "pb" [⟨"users", "public", none, none⟩]
        [⟨"pb_old", "public", "old"⟩],
      literallyPrefixed "pb" e.name = true ∧ e.name = canonicalName "pb" "users" :=
  ((setupTriggers_reconcile_invariant "pb" [⟨"users", "public", none, none⟩]
      [⟨"pb_old", "public", "old"⟩] (by decide) (by decide)).1.1
      (canonicalName "pb" "users")).mpr
    ⟨⟨"users", "public", none, none⟩, by decide, rfl⟩

/-! ## Listener merge lemmas -/

theorem mem_jsDedup {α : Type} [DecidableEq α] (l : List α) (b : α) :
    b ∈ jsDedup l ↔ b ∈ l := by
  induction l with
  | nil => simp [jsDedup]
  | cons a as ih =>
    rw [jsDedup]
    by_cases hba : b = a
    · subst hba
      simp
    · simp [List.mem_filter, ih, hba]

theorem mem_jsSetUnion {α : Type} [DecidableEq α] (xs ys : List α) (b : α) :
    b ∈ jsSetUnion xs ys ↔ b ∈ xs ∨ b ∈ ys := by
  rw [jsSetUnion, mem_jsDedup, List.mem_append]

theorem listener_unique {ls : List TableListener} (h : (tablesOf ls).Nodup)
    {l1 l2 : TableListener} (h1 : l1 ∈ ls) (h2 : l2 ∈ ls)
    (ht : l1.table = l2.table) : l1 = l2 :=
  List.inj_on_of_nodup_map h h1 h2 ht

theorem tablesOf_mergeRegistration (cfg : Option String) (ls : List TableListener)
    (p : Registration) :
    tablesOf (mergeRegistration cfg ls p) =
      if (ls.any fun l => decide (l.table = p.table)) = true then tablesOf ls
      else tablesOf ls ++ [p.table] := by
  by_cases hany : (ls.any fun l => decide (l.table = p.table)) = true
  · rw [mergeRegistration, if_pos hany, if_pos hany, tablesOf, tablesOf, List.map_map]
    refine List.map_congr_left ?_
    intro l hl
    by_cases hlt : l.table = p.table <;> simp [hlt]
  · rw [mergeRegistration, if_neg hany, if_neg hany]
    simp [tablesOf]

theorem tablesOf_nodup_mergeRegistration (cfg : Option String)
    (ls : List TableListener) (p : Registration) (h : (tablesOf ls).Nodup) :
    (tablesOf (mergeRegistration cfg ls p)).Nodup := by
  rw [tablesOf_mergeRegistration]
  by_cases hany : (ls.any fun l => decide (l.table = p.table)) = true
  · rw [if_pos hany]
    exact h
  · rw [if_neg hany]
    have hnot : p.table ∉ tablesOf ls := by
      intro hmem
      rw [tablesOf] at hmem
      rcases List.mem_map.mp hmem with ⟨l, hl, hlt⟩
      exact hany (List.any_eq_true.mpr ⟨l, hl, by simp [hlt]⟩)
    simp [List.nodup_append, h, hnot]

theorem mergeRegistration_events (cfg : Option String) (ls : List TableListener)
    (p : Registration) (hnd : (tablesOf ls).Nodup)
    (l2 : TableListener) (hl2 : l2 ∈ mergeRegistration cfg ls p) (e : PgEvent) :
    e ∈ l2.events.getD [] ↔
      ((∃ l ∈ ls, l.table = l2.table ∧ e ∈ l.events.getD []) ∨
        (p.table = l2.table ∧ e ∈ p.events.getD [])) := by
  by_cases hany : (ls.any fun l => decide (l.table = p.table)) = true
  · rw [mergeRegistration, if_pos hany] at hl2
    rcases List.mem_map.mp hl2 with ⟨l, hl, hfl⟩
    by_cases hlt : l.table = p.table
    · rw [if_pos hlt] at hfl
      subst hfl
      constructor
      · intro he
        rcases (mem_jsSetUnion _ _ e).mp he with he2 | he2
        · exact Or.inl ⟨l, hl, rfl, he2⟩
        · exact Or.inr ⟨hlt.symm, he2⟩
      · intro h
        refine (mem_jsSetUnion _ _ e).mpr ?_
        rcases h with ⟨l3, hl3, htab, he3⟩ | ⟨htab, he3⟩
        · exact Or.inl (listener_unique hnd hl3 hl htab ▸ he3)
        · exact Or.inr he3
    · rw [if_neg hlt] at hfl
      subst hfl
      constructor
      · intro he
        exact Or.inl ⟨l, hl, rfl, he⟩
      · intro h
        rcases h with ⟨l3, hl3, htab, he3⟩ | ⟨htab, he3⟩
        · exact listener_unique hnd hl3 hl htab ▸ he3
        · exact absurd htab.symm hlt
  · rw [mergeRegistration, if_neg hany] at hl2
    have hno : ∀ l ∈ ls, ¬ l.table = p.table := by
      intro l hl hlp
      exact hany (List.any_eq_true.mpr ⟨l, hl, by simp [hlp]⟩)
    rcases List.mem_append.mp hl2 with hl2 | hl2
    · constructor
      · intro he
        exact Or.inl ⟨l2, hl2, rfl, he⟩
      · intro h
        rcases h with ⟨l3, hl3, htab, he3⟩ | ⟨htab, he3⟩
        · exact listener_unique hnd hl3 hl2 htab ▸ he3
        · exact absurd htab.symm (hno l2 hl2)
    · simp only [List.mem_singleton] at hl2
      subst hl2
      constructor
      · intro he
        exact Or.inr ⟨rfl, he⟩
      · intro h
        rcases h with ⟨l3, hl3, htab, he3⟩ | ⟨htab, he3⟩
        · exact absurd htab (hno l3 hl3)
        · exact he3

theorem mergeRegistration_preserves (cfg : Option String) (ls : List TableListener)
    (p : Registration) (l0 : TableListener) (hl0 : l0 ∈ ls) :
    ∃ l ∈ mergeRegistration cfg ls p, l.table = l0.table ∧
      ∀ e : PgEvent, e ∈ l0.events.getD [] → e ∈ l.events.getD [] := by
  by_cases hany : (ls.any fun l => decide (l.table = p.table)) = true
  · rw [mergeRegistration, if_pos hany]
    by_cases hlt : l0.table = p.table
    · refine ⟨_, List.mem_map.mpr ⟨l0, hl0, rfl⟩, ?_⟩
      rw [if_pos hlt]
      exact ⟨rfl, fun e he => (mem_jsSetUnion _ _ e).mpr (Or.inl he)⟩
    · refine ⟨_, List.mem_map.mpr ⟨l0, hl0, rfl⟩, ?_⟩
      rw [if_neg hlt]
      exact ⟨rfl, fun e he => he⟩
  · rw [mergeRegistration, if_neg hany]
    exact ⟨l0, List.mem_append.mpr (Or.inl hl0), rfl, fun e he => he⟩

theorem mergeRegistration_absorbs (cfg : Option String) (ls : List TableListener)
    (p : Registration) :
    ∃ l ∈ mergeRegistration cfg ls p, l.table = p.table ∧
      ∀ e : PgEvent, e ∈ p.events.getD [] → e ∈ l.events.getD [] := by
  by_cases hany : (ls.any fun l => decide (l.table = p.table)) = true
  · rcases List.any_eq_true.mp hany with ⟨l0, hl0, hdec⟩
    have hlt : l0.table = p.table := of_decide_eq_true hdec
    rw [mergeRegistration, if_pos hany]
    refine ⟨_, List.mem_map.mpr ⟨l0, hl0, rfl⟩, ?_⟩
    rw [if_pos hlt]
    exact ⟨hlt, fun e he => (mem_jsSetUnion _ _ e).mpr (Or.inr he)⟩
  · rw [mergeRegistration, if_neg hany]
    exact ⟨{ table := p.table, schema := p.schema.getD (cfg.getD defaultTriggerSchema),
             events := p.events, payloadFields := p.payloadFields },
      List.mem_append.mpr (Or.inr (by simp)), rfl, fun e he => he⟩

theorem foldl_mergeRegistration_events (cfg : Option String)
    (regs : List Registration) :
    ∀ (acc : List TableListener), (tablesOf acc).Nodup →
      ((tablesOf (regs.foldl (mergeRegistration cfg) acc)).Nodup ∧
        ∀ l2 ∈ regs.foldl (mergeRegistration cfg) acc, ∀ e : PgEvent,
          (e ∈ l2.events.getD [] ↔
            ((∃ l ∈ acc, l.table = l2.table ∧ e ∈ l.events.getD []) ∨
              (∃ r ∈ regs, r.table = l2.table ∧ e ∈ r.events.getD [])))) := by
  induction regs with
  | nil =>
    intro acc hnd
    refine ⟨hnd, ?_⟩
    intro l2 hl2 e
    simp only [List.foldl_nil] at hl2
    constructor
    · intro he
      exact Or.inl ⟨l2, hl2, rfl, he⟩
    · rintro (⟨l, hl, htab, he⟩ | ⟨r, hr, htab, he⟩)
      · exact listener_unique hnd hl hl2 htab ▸ he
      · cases hr
  | cons r rs ih =>
    intro acc hnd
    rw [List.foldl_cons]
    have hnd2 := tablesOf_nodup_mergeRegistration cfg acc r hnd
    obtain ⟨hndf, hchar⟩ := ih (mergeRegistration cfg acc r) hnd2
    refine ⟨hndf, ?_⟩
    intro l2 hl2 e
    rw [hchar l2 hl2 e]
    constructor
    · rintro (⟨l, hl, htab, he⟩ | ⟨r2, hr2, htab, he⟩)
      · rcases (mergeRegistration_events cfg acc r hnd l hl e).mp he with
          ⟨l0, hl0, htab0, he0⟩ | ⟨htabr, her⟩
        · exact Or.inl ⟨l0, hl0, htab0.trans htab, he0⟩
        · exact Or.inr ⟨r, List.mem_cons_self r rs, htabr.trans htab, her⟩
      · exact Or.inr ⟨r2, List.mem_cons_of_mem r hr2, htab, he⟩
    · rintro (⟨l0, hl0, htab0, he0⟩ | ⟨r2, hr2, htab2, he2⟩)
      · obtain ⟨l, hl, htab, hsub⟩ := mergeRegistration_preserves cfg acc r l0 hl0
        exact Or.inl ⟨l, hl, htab.trans htab0, hsub e he0⟩
      · rcases List.mem_cons.mp hr2 with rfl | hr3
        · obtain ⟨l, hl, htab, hsub⟩ := mergeRegistration_absorbs cfg acc r2
          exact Or.inl ⟨l, hl, htab.trans htab2, hsub e he2⟩
        · exact Or.inr ⟨r2, hr3, htab2, he2⟩

/-! ## C4: merged event masks -/

/-- C4 counterexample.  Two registrations for one table, one with mask
INSERT and one with no mask: the merge unions events || [], so the missing
mask contributes the empty set rather than the full set, and the generated
trigger fires on INSERT only instead of the full INSERT/UPDATE/DELETE set
the claim predicts. -/
theorem merged_trigger_events_counterexample :
    ((processDiscoveredListeners none
        [⟨"t", none, some [PgEvent.insert], none⟩,
          ⟨"t", none, none, none⟩]).map fun l => triggerEvents l.events) =
      [[PgEvent.insert]] ∧
    [PgEvent.insert] ≠ allPgEvents := by
  refine ⟨?_, ?_⟩ <;> decide

/-- C4 (amended): for every table, the merged event mask is the set union of
the registrations' explicitly given masks, a registration with no mask
contributing the empty set; the generated trigger fires on exactly this
union, falling back to the full INSERT/UPDATE/DELETE set only when the union
is empty, that is, when no registration for the table gave a mask. -/
theorem merged_trigger_events (cfgSchema : Option String)
    (regs : List Registration) (l : TableListener)
    (hl : l ∈ processDiscoveredListeners cfgSchema regs) :
    (∀ e, e ∈ l.events.getD [] ↔
      ∃ r ∈ regs, r.table = l.table ∧ e ∈ r.events.getD []) ∧
    (∀ e, e ∈ triggerEvents l.events ↔
      ((∃ r ∈ regs, r.table = l.table ∧ e ∈ r.events.getD []) ∨
        (∀ r ∈ regs, r.table = l.table → r.events.getD [] = []))) := by
  obtain ⟨hnd, hchar⟩ :=
    foldl_mergeRegistration_events cfgSchema regs [] (by simp [tablesOf])
  have hpart1 : ∀ e, e ∈ l.events.getD [] ↔
      ∃ r ∈ regs, r.table = l.table ∧ e ∈ r.events.getD [] := by
    intro e
    rw [hchar l hl e]
    simp
  refine ⟨hpart1, ?_⟩
  intro e
  have hallmem : ∀ e2 : PgEvent, e2 ∈ allPgEvents := by
    intro e2
    cases e2 <;> simp [allPgEvents]
  have hempty_of : (l.events.getD [] = ([] : List PgEvent)) →
      ∀ r ∈ regs, r.table = l.table → r.events.getD [] = [] := by
    intro hnil r hr htab
    rw [List.eq_nil_iff_forall_not_mem]
    intro e2 he2
    have := (hpart1 e2).mpr ⟨r, hr, htab, he2⟩
    rw [hnil] at this
    cases this
  match hev : l.events with
  | none =>
    rw [hev] at hpart1 hempty_of
    refine iff_of_true (by rw [triggerEvents]; exact hallmem e) ?_
    exact Or.inr (hempty_of rfl)
  | some es =>
    rw [hev] at hpart1 hempty_of
    by_cases hes : es.isEmpty = true
    · have hnil : es = [] := List.isEmpty_iff.mp hes
      subst hnil
      refine iff_of_true ?_ ?_
      · rw [triggerEvents]
        simp only [List.isEmpty_nil, if_pos]
        exact hallmem e
      · exact Or.inr (hempty_of rfl)
    · have htr : triggerEvents (some es) = es := by
        rw [triggerEvents, if_neg hes]
      rw [htr]
      constructor
      · intro he
        exact Or.inl ((hpart1 e).mp he)
      · rintro (h | h)
        · exact (hpart1 e).mpr h
        · exfalso
          rcases List.exists_mem_of_ne_nil es
            (fun hn => hes (by rw [hn]; rfl)) with ⟨e0, he0⟩
          have := (hpart1 e0).mp he0
          rcases this with ⟨r, hr, htab, he0r⟩
          rw [h r hr htab] at he0r
          cases he0r

/-- Witness for merged_trigger_events at a single registration with an
explicit INSERT mask. -/
theorem merged_trigger_events_witness :
    PgEvent.insert ∈ triggerEvents
        ((⟨"t", "public", some [PgEvent.insert], none⟩ : TableListener).events) ↔
      ((∃ r ∈ [(⟨"t", none, some [PgEvent.insert], none⟩ : Registration)],
          r.table = (⟨"t", "public", some [PgEvent.insert], none⟩ :
            TableListener).table ∧
          PgEvent.insert ∈ r.events.getD []) ∨
        (∀ r ∈ [(⟨"t", none, some [PgEvent.insert], none⟩ : Registration)],
          r.table = (⟨"t", "public", some [PgEvent.insert], none⟩ :
            TableListener).table →
          r.events.getD [] = [])) :=
  (merged_trigger_events none [⟨"t", none, some [PgEvent.insert], none⟩]
      ⟨"t", "public", some [PgEvent.insert], none⟩ (by decide)).2 PgEvent.insert
